import Mathlib

/-!
Metrics scheduler (`src/test2.js`): dataset merges and the run controller.

A shallow embedding of the scheduler file.  Every `async` function of the
source becomes a pure function of the values its collaborators hand back
(stored record, fresh fetch, clock reading) and of the store state; the
record a synchronizer passes to its `Set…ToDB` call is its result.
-/

namespace MetricsScheduler

/-! ## Data model -/

/-- Modelled from the spec: the `{date, count}` entry of a time-series dataset
record (the entry type is declared outside the scheduler file). -/
structure Entry where
  date : String
  count : Nat
  deriving DecidableEq

/-- The `opts` object handed to every synchronizer. -/
structure Opts where
  orgName : String
  token : String
  repoId : Nat
  repoName : String
  deriving DecidableEq

/-- Stored document of the clones / views / actions datasets:
`{repo_id, repo_name, list}`. -/
structure ListRecord (α : Type) where
  repo_id : Nat
  repo_name : String
  list : List α
  deriving DecidableEq

/-- Stored document of the watchers dataset: `{repo_id, repo_name, list, watchers}`;
`watchers` is an array (the source tests `watchers.length`). -/
structure WatchersRecord where
  repo_id : Nat
  repo_name : String
  list : List Entry
  watchers : List String
  deriving DecidableEq

/-! ## Building blocks of the merges -/

/-- Source `s.split('T')[0]`: the part of a timestamp before its first `T`. -/
def calendarDay (s : String) : String :=
  String.mk (s.toList.takeWhile (fun c => c != 'T'))

/-- Source `arr.sort((a, b) => new Date(a.date) - new Date(b.date))`: the stable ascending
sort on the numeric value of the date; `dateValue` stands for `new Date(·)` read as
a number (the dates are taken to be valid, so it is never `NaN`). -/
def sortByDate (dateValue : String → Int) (l : List Entry) : List Entry :=
  l.insertionSort (fun a b => dateValue a.date ≤ dateValue b.date)

/-- One `map.set(item.date, item)` on a `Map` kept as the list of its values in
insertion order: an existing key keeps its position and takes the new value, a new
key is appended. -/
def mapSet (m : List Entry) (item : Entry) : List Entry :=
  if m.any (fun x => x.date == item.date) then
    m.map (fun x => if x.date == item.date then item else x)
  else m ++ [item]

/-- Source `[...new Map(l.map(item => [item.date, item])).values()]`. -/
def mapValuesByDate (l : List Entry) : List Entry :=
  l.foldl mapSet []

/-- The list assigned to `data.list` by `ClonesDataJob` (lines 207-211): sort both
lists, `pop` the stored one, concatenate, rebuild through a `Map` keyed by date. -/
def clonesMerge (dateValue : String → Int) (dbList apiList : List Entry) : List Entry :=
  let sortedDbData := sortByDate dateValue dbList
  let sortedApiData := sortByDate dateValue apiList
  let filteredData := sortedDbData.dropLast ++ sortedApiData
  mapValuesByDate filteredData

/-- The list assigned to `data.list` by `ViewsDataJob` (lines 247-251). -/
def viewsMerge (dateValue : String → Int) (dbList apiList : List Entry) : List Entry :=
  let sortedDbData := sortByDate dateValue dbList
  let sortedApiData := sortByDate dateValue apiList
  let filteredData := sortedDbData.dropLast ++ sortedApiData
  mapValuesByDate filteredData

/-- Source `ClonesDataJob` (lines 199-227): the record passed to `SetClonesToDB`, `none` when the job
writes nothing. -/
def ClonesDataJob (dateValue : String → Int) (opts : Opts)
    (getClonesFromDb : Option (ListRecord Entry)) (getClonesList : List Entry) :
    Option (ListRecord Entry) :=
  match getClonesFromDb with
  | some data =>
    if getClonesList.length ≠ 0 then
      some { data with list := clonesMerge dateValue data.list getClonesList }
    else none
  | none => some { repo_id := opts.repoId, repo_name := opts.repoName, list := getClonesList }

/-- Source `ViewsDataJob` (lines 239-267): the record passed to `SetViewsToDB`, `none` when the job
writes nothing. -/
def ViewsDataJob (dateValue : String → Int) (opts : Opts)
    (getViewsFromDb : Option (ListRecord Entry)) (getViewsList : List Entry) :
    Option (ListRecord Entry) :=
  match getViewsFromDb with
  | some data =>
    if getViewsList.length ≠ 0 then
      some { data with list := viewsMerge dateValue data.list getViewsList }
    else none
  | none => some { repo_id := opts.repoId, repo_name := opts.repoName, list := getViewsList }

/-- The list assigned to `data.list` by `WatchersDataJob` (lines 92-94). -/
def watchersMerge (Today : String) (dbList list : List Entry) : List Entry :=
  (dbList.filter (fun watch => calendarDay watch.date != Today)) ++ list

/-- Source `WatchersDataJob` (lines 83-112): the record passed to `SetWatchersToDB`, `none` when the job
writes nothing.  `list` and `watchers` are the pair returned by `GetWatchersList`. -/
def WatchersDataJob (Today : String) (opts : Opts)
    (getWatchersFromDb : Option WatchersRecord) (list : List Entry) (watchers : List String) :
    Option WatchersRecord :=
  match getWatchersFromDb with
  | some data =>
    if watchers.length ≠ 0 then
      some { data with list := watchersMerge Today data.list list, watchers := watchers }
    else none
  | none =>
    some { repo_id := opts.repoId, repo_name := opts.repoName, list := list, watchers := watchers }

/-- Source `Array.from(new Set(strings))`: one `set.add` per element, a string that is
already present is skipped. -/
def setValues (l : List String) : List String :=
  l.foldl (fun seen s => if s ∈ seen then seen else seen ++ [s]) []

/-- The list assigned to `data.list` by `ActionsDataJob` (lines 286-287);
`stringify` and `parse` stand for `JSON.stringify` and `JSON.parse`. -/
def actionsMerge {α : Type} (stringify : α → String) (parse : String → α)
    (dbList apiList : List α) : List α :=
  (setValues ((dbList ++ apiList).map stringify)).map parse

/-- Source `ActionsDataJob` (lines 279-301): the record passed to `SetActionsToDB`; the call on line 295
is outside the `if`, so there always is one. -/
def ActionsDataJob {α : Type} (stringify : α → String) (parse : String → α) (opts : Opts)
    (getActionsFromDb : Option (ListRecord α)) (getActionsList : List α) : ListRecord α :=
  match getActionsFromDb with
  | some data =>
    if getActionsList.length ≠ 0 then
      { data with list := actionsMerge stringify parse data.list getActionsList }
    else { repo_id := opts.repoId, repo_name := opts.repoName, list := getActionsList }
  | none => { repo_id := opts.repoId, repo_name := opts.repoName, list := getActionsList }

/-- Day-granular instants of the first days of January 2024, in milliseconds, as
`new Date(·)` reads them; other strings are not used by the examples. -/
def jan2024 (s : String) : Int :=
  if s = "2024-01-01" then 1704067200000
  else if s = "2024-01-02" then 1704153600000
  else if s = "2024-01-03" then 1704240000000
  else if s = "2024-01-05" then 1704412800000
  else if s = "2024-01-09" then 1704758400000
  else if s = "2024-01-01T00:00:00Z" then 1704067200000
  else if s = "2024-01-01T12:00:00Z" then 1704110400000
  else if s = "2024-01-02T00:00:00Z" then 1704153600000
  else 0

/-! ## Run controller

The store and the remote provider are collaborators.  `Env` fixes what each of their
calls does during one run (acknowledge, hand back data, or throw) and `World` is the
state the run can change.  A store call that throws is taken to leave the store as it
was.  `Logger.log` and the `JSON.stringify(exc)` of its message are taken not to throw. -/

/-- A thrown JavaScript value as far as `returnErrorObject` inspects it:
`exc.response` (`none` when absent, else `exc.response.data?.message`) and
`exc.message`. -/
structure JsError where
  response : Option (Option String)
  message : Option String
  deriving DecidableEq

/-- The `TypeError` the runtime raises (calling a method that does not exist, reading
a property of `undefined`, destructuring `null`). -/
def typeError : JsError := ⟨none, some "TypeError"⟩

/-- Source `String.prototype.toUpperCase`, on ASCII text (where it agrees with
`Char.toUpper`). -/
def toUpperCase (s : String) : String := String.mk (s.toList.map Char.toUpper)

/-- Source `s.includes(sub)`. -/
def includes (s sub : String) : Bool := decide (sub.toList <:+: s.toList)

/-- The values a synchronizer can hand to `Promise.allSettled`, and the `undefined`
that `res.value` is on a rejected promise. -/
inductive JsValue where
  | undefined
  | bool (b : Bool)
  | str (s : String)
  | obj (message : Option String)
  deriving DecidableEq

/-- Source `returnErrorObject` (lines 35-45): the `{message}` object, or the `TypeError`
of `exc.message.toUpperCase()` rethrown by its `catch`. -/
def returnErrorObject (exc : JsError) : Except JsError JsValue :=
  match exc.response with
  | some dataMessage => .ok (.obj (dataMessage.map toUpperCase))
  | none =>
    match exc.message with
    | some m => .ok (.obj (some (toUpperCase m)))
    | none => .error typeError

/-- What the `try` block of each of the nine synchronizers of one repository does:
return a value or throw. -/
structure SyncBodies where
  actions : Except JsError JsValue
  watchers : Except JsError JsValue
  clones : Except JsError JsValue
  views : Except JsError JsValue
  forks : Except JsError JsValue
  release : Except JsError JsValue
  license : Except JsError JsValue
  language : Except JsError JsValue
  repoTree : Except JsError JsValue

/-- A synchronizer whose `catch` is `return returnErrorObject(exc)`. -/
def catchReturn (body : Except JsError JsValue) : Except JsError JsValue :=
  match body with
  | .ok v => .ok v
  | .error exc => returnErrorObject exc

/-- The synchronizer `WatchersDataJob`, whose `catch` is `throw exc` (line 110). -/
def catchThrow (body : Except JsError JsValue) : Except JsError JsValue :=
  match body with
  | .ok v => .ok v
  | .error exc => .error exc

/-- The `res.value` of one entry of `Promise.allSettled`. -/
def settledValue (promise : Except JsError JsValue) : JsValue :=
  match promise with
  | .ok v => v
  | .error _ => .undefined

/-- The `res.value`s of `metricsJobCollection` (lines 467-477), in the order of the
array. -/
def metricsJobCollection (b : SyncBodies) : List JsValue :=
  [settledValue (catchReturn b.actions),
   settledValue (catchThrow b.watchers),
   settledValue (catchReturn b.clones),
   settledValue (catchReturn b.views),
   settledValue (catchReturn b.forks),
   settledValue (catchReturn b.release),
   settledValue (catchReturn b.license),
   settledValue (catchReturn b.language),
   settledValue (catchReturn b.repoTree)]

/-- Source `typeof v === 'object'`. -/
def typeofObject (v : JsValue) : Bool :=
  match v with
  | .obj _ => true
  | _ => false

/-- Source `v.toUpperCase()`: a string has the method, on any other value the call throws
a `TypeError`. -/
def callToUpperCase (v : JsValue) : Except JsError String :=
  match v with
  | .str s => .ok (toUpperCase s)
  | _ => .error typeError

/-- The callback of line 480:
`typeof res.value === 'object' && res.value.toUpperCase().includes('API LIMIT')`. -/
def limitCallback (v : JsValue) : Except JsError Bool :=
  if typeofObject v then
    match callToUpperCase v with
    | .ok s => .ok (includes s "API LIMIT")
    | .error e => .error e
  else .ok false

/-- Source `metricsJobCollection.some(callback)`: left to right, stops at the first `true`,
a throwing callback ends it. -/
def limitReachFlag (vs : List JsValue) : Except JsError Bool :=
  match vs with
  | [] => .ok false
  | v :: rest =>
    match limitCallback v with
    | .error e => .error e
    | .ok true => .ok true
    | .ok false => limitReachFlag rest

/-- The organization document read by `GetOrg`; `org_name` and `org_status` may be
absent. -/
structure Org where
  org_name : Option String
  onboard_complete : Bool
  token : String
  org_status : Option String
  api_limit_exceeded : Bool
  api_limit_reached_count : Nat
  deriving DecidableEq

/-- Modelled from the spec: the Job Record of `(installation_id, 'Metrics')` behind
`jobsModel.SubmitTask`, whose `$set` update replaces the listed fields.  `expires_at`
is the instant in whole UTC seconds that the `YYYY-MM-DDTHH:mm:ss[Z]` text denotes. -/
structure JobRecord where
  expires_at : Nat
  processing : Bool
  deriving DecidableEq

/-- A row of the repository list. -/
structure Repo where
  repo_id : Nat
  repo_name : String
  deriving DecidableEq

/-- The state a run can change: the organization document (`none`: `GetOrg` resolves
to `null`), the Metrics Job Record, and the repositories whose nine synchronizers
have been started, in order. -/
structure World where
  org : Option Org
  job : JobRecord
  started : List Repo
  deriving DecidableEq

/-- The collaborators during one run: for each awaited call the exception it throws,
if any; the repository list handed back by `GetRepoListFromDB`, each repository with
what its synchronizers do; and the clock reading of `moment()` in milliseconds. -/
structure Env where
  getOrg : Option JsError
  submitProcessingTrue : Option JsError
  getReposList : Option JsError
  updateMultiRepo : Option JsError
  getRepoListFromDB : Except JsError (List (Repo × SyncBodies))
  updateOrg : Option JsError
  now : Nat
  scheduleSubmit : Option JsError
  submitProcessingFalse : Option JsError

/-- The return values `'success'` and `'error'` of `DailyScheduledJobs`. -/
inductive RunStatus where
  | success
  | error
  deriving DecidableEq

/-- Source `ScheduleDBJob` (lines 393-406): `expires_at` is the clock plus one hour,
formatted to the second; a throwing `SubmitTask` is caught and turned into
`returnErrorObject(exc)`. -/
def ScheduleDBJob (env : Env) (w : World) : World × Except JsError JsValue :=
  let expiresAt := (env.now + 3600000) / 1000
  match env.scheduleSubmit with
  | none => ({ w with job := { expires_at := expiresAt, processing := false } }, .ok .undefined)
  | some exc => (w, returnErrorObject exc)

/-- Source `!orgName`: absent or empty. -/
def notOrgName (orgName : Option String) : Bool :=
  match orgName with
  | none => true
  | some s => s == ""

/-- The condition of line 432, `!orgName && status.toUpperCase() !== 'ACTIVE'`; with
`&&` the status is read only when the name is missing, and reading an absent status
throws. -/
def orgNotFoundOrInactive (org : Org) : Except JsError Bool :=
  if notOrgName org.org_name then
    match org.org_status with
    | none => .error typeError
    | some status => .ok (toUpperCase status != "ACTIVE")
  else .ok false

/-- The `for await` loop of lines 455-488.  `.ok none`: the loop ran to its end;
`.ok (some s)`: the `return` of line 486. -/
def fanOutLoop (env : Env) (reachedCount : Nat) :
    List (Repo × SyncBodies) → World → World × Except JsError (Option RunStatus)
  | [], w => (w, .ok none)
  | (repo, bodies) :: rest, w =>
    let w1 := { w with started := w.started ++ [repo] }
    match limitReachFlag (metricsJobCollection bodies) with
    | .error e => (w1, .error e)
    | .ok true =>
      match env.updateOrg with
      | some exc => (w1, .error exc)
      | none =>
        ({ w1 with org := w1.org.map (fun o =>
            { o with api_limit_exceeded := true, api_limit_reached_count := reachedCount + 1 }) },
          .ok (some .error))
    | .ok false => fanOutLoop env reachedCount rest w1

/-- The `try` block of `DailyScheduledJobs` (lines 421-492). -/
def tryBlock (env : Env) (w : World) : World × Except JsError RunStatus :=
  match env.getOrg with
  | some exc => (w, .error exc)
  | none =>
    match w.org with
    | none => (w, .error typeError)
    | some org =>
      match orgNotFoundOrInactive org with
      | .error e => (w, .error e)
      | .ok true => (w, .ok .error)
      | .ok false =>
        if !org.onboard_complete then (w, .ok .error)
        else
          match env.submitProcessingTrue with
          | some exc => (w, .error exc)
          | none =>
            let w1 := { w with job := { w.job with processing := true } }
            if !org.api_limit_exceeded then
              match env.getReposList with
              | some exc => (w1, .error exc)
              | none =>
                match env.updateMultiRepo with
                | some exc => (w1, .error exc)
                | none =>
                  match env.getRepoListFromDB with
                  | .error exc => (w1, .error exc)
                  | .ok repoList =>
                    match fanOutLoop env org.api_limit_reached_count repoList w1 with
                    | (w2, .error e) => (w2, .error e)
                    | (w2, .ok (some status)) => (w2, .ok status)
                    | (w2, .ok none) =>
                      match ScheduleDBJob env w2 with
                      | (w3, .error e) => (w3, .error e)
                      | (w3, .ok _) => (w3, .ok .success)
            else (w1, .ok .success)

/-- Source `DailyScheduledJobs` (lines 418-499): the `try` block, and the `catch` that
resets `processing` and returns `'error'`; `.error` is a rejection of the returned
promise (the `SubmitTask` of the `catch` threw). -/
def DailyScheduledJobs (env : Env) (w : World) : World × Except JsError RunStatus :=
  match tryBlock env w with
  | (w1, .ok status) => (w1, .ok status)
  | (w1, .error _) =>
    match env.submitProcessingFalse with
    | some exc => (w1, .error exc)
    | none => ({ w1 with job := { w1.job with processing := false } }, .ok .error)

/-- Every synchronizer returns `'success'`. -/
def allSuccess : SyncBodies :=
  ⟨.ok (.str "success"), .ok (.str "success"), .ok (.str "success"), .ok (.str "success"),
   .ok (.str "success"), .ok (.str "success"), .ok (.str "success"), .ok (.str "success"),
   .ok (.bool true)⟩

/-- Collaborators that all acknowledge, with the given repository list and clock. -/
def quietEnv (repoList : List (Repo × SyncBodies)) (now : Nat) : Env :=
  ⟨none, none, none, none, .ok repoList, none, now, none, none⟩

/-- An organization that is named, ACTIVE, onboarded and not rate-limited, with the
counter at 2. -/
def acme : Org := ⟨some "acme", true, "t", some "active", false, 2⟩

/-! ## Vocabulary of the statements -/

/-- The date keys of a list of entries. -/
def keys (l : List Entry) : List String := l.map (fun e => e.date)

/-- Entry `x` is the last entry of `l` that carries its date. -/
def IsLastForDate (l : List Entry) (x : Entry) : Prop :=
  ∃ l₁ l₂, l = l₁ ++ x :: l₂ ∧ x.date ∉ keys l₂

/-- The list has at most one entry per calendar date (the `YYYY-MM-DD` prefix of the
timestamp). -/
def OnePerCalendarDate (l : List Entry) : Prop :=
  (l.map (fun e => calendarDay e.date)).Nodup

instance (l : List Entry) : Decidable (OnePerCalendarDate l) := by
  unfold OnePerCalendarDate; infer_instance

/-- The wording of the specification for the actions merge: the list with every
entry that is equal to an earlier entry removed. -/
def removeLaterDuplicates {α : Type} [DecidableEq α] : List α → List α
  | [] => []
  | x :: xs => x :: (removeLaterDuplicates xs).filter (fun y => decide (y ≠ x))

/-- A number or string value of a flat JSON document. -/
inductive JsonScalar where
  | num (n : Nat)
  | str (s : String)
  deriving DecidableEq

/-- A plain object with scalar values: its own properties in insertion order, which
is the order `JSON.stringify` prints them in.  Keys are distinct names. -/
abbrev JsObject := List (String × JsonScalar)

/-- The double quote character. -/
def dquote : Char := Char.ofNat 34

/-- JSON text of a string without characters that need escaping. -/
def quoteChars (s : String) : List Char := dquote :: s.toList ++ [dquote]

/-- JSON text of a scalar: decimal digits, or the quoted string. -/
def stringifyScalar (v : JsonScalar) : List Char :=
  match v with
  | .num n => (Nat.repr n).toList
  | .str s => quoteChars s

/-- Source `JSON.stringify` on a flat object: the members `"key":value` in property
order, separated by commas, between braces. -/
def stringifyObject (o : JsObject) : String :=
  String.mk ([Char.ofNat 123]
    ++ List.intercalate [','] (o.map (fun kv => quoteChars kv.1 ++ ':' :: stringifyScalar kv.2))
    ++ [Char.ofNat 125])

/-- The pieces of a text between occurrences of `c`. -/
def splitOnChar (c : Char) : List Char → List (List Char)
  | [] => [[]]
  | x :: xs =>
    if x = c then [] :: splitOnChar c xs
    else
      match splitOnChar c xs with
      | [] => [[x]]
      | p :: ps => (x :: p) :: ps

/-- A text without its first and last character. -/
def stripEnds (cs : List Char) : List Char := (cs.drop 1).dropLast

/-- The number written by a run of decimal digits. -/
def digitsValue (cs : List Char) : Nat := cs.foldl (fun n c => 10 * n + (c.toNat - 48)) 0

/-- Reading back of a scalar text. -/
def parseScalar (cs : List Char) : JsonScalar :=
  if cs.head? = some dquote then .str (String.mk (stripEnds cs)) else .num (digitsValue cs)

/-- Reading back of one member `"key":value`. -/
def parseMember (cs : List Char) : String × JsonScalar :=
  match splitOnChar ':' cs with
  | k :: v :: _ => (String.mk (stripEnds k), parseScalar v)
  | _ => ("", .num 0)

/-- Source `JSON.parse` on the texts that `stringifyObject` prints for objects whose
keys and strings hold no quote, comma, colon or backslash: the members in text
order. -/
def parseObject (s : String) : JsObject :=
  if stripEnds s.toList = [] then [] else (splitOnChar ',' (stripEnds s.toList)).map parseMember

/-- Structural equality of two flat objects: the same keys with the same values, in
whatever order. -/
def deepEqual (a b : JsObject) : Bool :=
  a.length == b.length && a.all (fun kv => b.lookup kv.1 == some kv.2)

/-- The wording of the specification for the actions merge, for a notion `same` of
equal entries: the list with every entry that is the same as an earlier entry
removed. -/
def removeLaterDuplicatesBy {α : Type} (same : α → α → Bool) : List α → List α
  | [] => []
  | x :: xs => x :: (removeLaterDuplicatesBy same xs).filter (fun y => !same x y)

/-- The workflow entry `{id: 1, name: 'ci'}`. -/
def ciRun : JsObject := [("id", .num 1), ("name", .str "ci")]

/-- The same entry with its properties in the other order, `{name: 'ci', id: 1}`. -/
def ciRunSwapped : JsObject := [("name", .str "ci"), ("id", .num 1)]

/-- The workflow entry `{id: 2, name: 'cd'}`. -/
def cdRun : JsObject := [("id", .num 2), ("name", .str "cd")]

/-- The run returns at line 434 or 439: the organization document is read and the
gate of line 432 or the onboarding check of line 437 rejects it. -/
def eligibilityFailure (env : Env) (w : World) : Bool :=
  env.getOrg.isNone &&
    match w.org with
    | none => false
    | some org =>
      match orgNotFoundOrInactive org with
      | .ok true => true
      | .ok false => !org.onboard_complete
      | .error _ => false

/-! ## Lemmas on the `Map` rebuild -/

theorem any_date_iff (m : List Entry) (d : String) :
    (m.any (fun x => x.date == d)) = true ↔ d ∈ keys m := by
  simp only [keys, List.any_eq_true, List.mem_map, beq_iff_eq]

theorem keys_mapSet (m : List Entry) (e : Entry) :
    keys (mapSet m e) = if e.date ∈ keys m then keys m else keys m ++ [e.date] := by
  unfold mapSet
  by_cases h : e.date ∈ keys m
  · rw [if_pos ((any_date_iff m e.date).2 h), if_pos h]
    simp only [keys, List.map_map]
    apply List.map_congr_left
    intro x _
    by_cases hx : x.date = e.date <;> simp [hx]
  · have h2 : ¬ (m.any (fun x => x.date == e.date)) = true := fun h1 =>
      h ((any_date_iff m e.date).1 h1)
    rw [if_neg h2, if_neg h]
    simp [keys]

theorem mem_mapSet (m : List Entry) (e x : Entry) :
    x ∈ mapSet m e ↔ x = e ∨ (x ∈ m ∧ x.date ≠ e.date) := by
  unfold mapSet
  by_cases h : e.date ∈ keys m
  · rw [if_pos ((any_date_iff m e.date).2 h)]
    simp only [List.mem_map, beq_iff_eq]
    constructor
    · rintro ⟨y, hy, hxy⟩
      by_cases hd : y.date = e.date
      · rw [if_pos hd] at hxy; exact Or.inl hxy.symm
      · rw [if_neg hd] at hxy; subst hxy; exact Or.inr ⟨hy, hd⟩
    · rintro (rfl | ⟨hx, hd⟩)
      · obtain ⟨y, hy, hyd⟩ := List.mem_map.1 h
        exact ⟨y, hy, by rw [if_pos hyd]⟩
      · exact ⟨x, hx, by rw [if_neg hd]⟩
  · have h2 : ¬ (m.any (fun x => x.date == e.date)) = true := fun h1 =>
      h ((any_date_iff m e.date).1 h1)
    rw [if_neg h2]
    simp only [List.mem_append, List.mem_singleton]
    constructor
    · rintro (hx | rfl)
      · refine Or.inr ⟨hx, fun hd => h ?_⟩
        rw [← hd]; exact List.mem_map.2 ⟨x, hx, rfl⟩
      · exact Or.inl rfl
    · rintro (rfl | ⟨hx, _⟩)
      · exact Or.inr rfl
      · exact Or.inl hx

theorem nodup_keys_mapSet (m : List Entry) (e : Entry) (h : (keys m).Nodup) :
    (keys (mapSet m e)).Nodup := by
  rw [keys_mapSet]
  by_cases hd : e.date ∈ keys m
  · rw [if_pos hd]; exact h
  · rw [if_neg hd]
    exact List.Nodup.append h (List.nodup_singleton _) (by simpa using hd)

theorem nodup_keys_foldl (l m : List Entry) (h : (keys m).Nodup) :
    (keys (l.foldl mapSet m)).Nodup := by
  induction l generalizing m with
  | nil => exact h
  | cons e l ih => exact ih _ (nodup_keys_mapSet m e h)

theorem mem_keys_foldl (l m : List Entry) (d : String) :
    d ∈ keys (l.foldl mapSet m) ↔ d ∈ keys m ∨ d ∈ keys l := by
  induction l generalizing m with
  | nil => simp [keys]
  | cons e l ih =>
    rw [List.foldl_cons, ih, keys_mapSet]
    by_cases hd : e.date ∈ keys m
    · rw [if_pos hd]
      simp only [keys, List.map_cons, List.mem_cons]
      constructor
      · rintro (h | h)
        · exact Or.inl h
        · exact Or.inr (Or.inr h)
      · rintro (h | h | h)
        · exact Or.inl h
        · exact Or.inl (h ▸ hd)
        · exact Or.inr h
    · rw [if_neg hd]
      simp only [keys, List.map_cons, List.mem_cons, List.mem_append, List.mem_singleton]
      tauto

theorem isLastForDate_cons (e : Entry) (l : List Entry) (x : Entry) :
    IsLastForDate (e :: l) x ↔ (x = e ∧ x.date ∉ keys l) ∨ IsLastForDate l x := by
  constructor
  · rintro ⟨l₁, l₂, h, hn⟩
    cases l₁ with
    | nil =>
      simp only [List.nil_append, List.cons.injEq] at h
      exact Or.inl ⟨h.1.symm, h.2 ▸ hn⟩
    | cons a l₁ =>
      simp only [List.cons_append, List.cons.injEq] at h
      exact Or.inr ⟨l₁, l₂, h.2, hn⟩
  · rintro (⟨rfl, hn⟩ | ⟨l₁, l₂, h, hn⟩)
    · exact ⟨[], l, rfl, hn⟩
    · exact ⟨e :: l₁, l₂, by rw [h]; rfl, hn⟩

theorem IsLastForDate.mem {l : List Entry} {x : Entry} (h : IsLastForDate l x) : x ∈ l := by
  obtain ⟨l₁, l₂, rfl, _⟩ := h
  simp

theorem mem_foldl_mapSet (l m : List Entry) (x : Entry) :
    x ∈ l.foldl mapSet m ↔ (x ∈ m ∧ x.date ∉ keys l) ∨ IsLastForDate l x := by
  induction l generalizing m with
  | nil =>
    simp only [List.foldl_nil, keys, List.map_nil, List.not_mem_nil, not_false_eq_true, and_true]
    constructor
    · exact Or.inl
    · rintro (h | ⟨l₁, l₂, h, _⟩)
      · exact h
      · cases l₁ <;> simp at h
  | cons e l ih =>
    rw [List.foldl_cons, ih, mem_mapSet, isLastForDate_cons]
    simp only [keys, List.map_cons, List.mem_cons, not_or]
    constructor
    · rintro (⟨rfl | ⟨hx, hd⟩, hn⟩ | h)
      · exact Or.inr (Or.inl ⟨rfl, hn⟩)
      · exact Or.inl ⟨hx, hd, hn⟩
      · exact Or.inr (Or.inr h)
    · rintro (⟨hx, hd, hn⟩ | ⟨rfl, hn⟩ | h)
      · exact Or.inl ⟨Or.inr ⟨hx, hd⟩, hn⟩
      · exact Or.inl ⟨Or.inl rfl, hn⟩
      · exact Or.inr h

theorem nodup_keys_mapValuesByDate (l : List Entry) : (keys (mapValuesByDate l)).Nodup :=
  nodup_keys_foldl l [] (by simp [keys])

theorem mem_keys_mapValuesByDate (l : List Entry) (d : String) :
    d ∈ keys (mapValuesByDate l) ↔ d ∈ keys l := by
  unfold mapValuesByDate
  rw [mem_keys_foldl]
  simp [keys]

theorem mem_mapValuesByDate (l : List Entry) (x : Entry) :
    x ∈ mapValuesByDate l ↔ IsLastForDate l x := by
  unfold mapValuesByDate
  rw [mem_foldl_mapSet]
  simp

/-- In a list with pairwise distinct date keys, the entries carrying the date of a
member are that member alone. -/
theorem filter_date_eq_singleton (l : List Entry) (h : (keys l).Nodup) (x : Entry)
    (hx : x ∈ l) : l.filter (fun e => e.date == x.date) = [x] := by
  induction l with
  | nil => cases hx
  | cons a l ih =>
    simp only [keys, List.map_cons, List.nodup_cons, List.mem_map, not_exists, not_and] at h
    rcases List.mem_cons.1 hx with rfl | hx
    · rw [List.filter_cons_of_pos (by simp)]
      congr 1
      apply List.filter_eq_nil_iff.2
      intro y hy hyd
      exact h.1 y hy (by simpa using hyd)
    · have hne : ¬ (a.date == x.date) = true := by
        intro hax
        have hax2 : a.date = x.date := by simpa using hax
        exact h.1 x hx hax2.symm
      rw [List.filter_cons, if_neg hne]
      exact ih h.2 hx

theorem exists_isLastForDate (l : List Entry) (d : String) (h : d ∈ keys l) :
    ∃ x, x.date = d ∧ IsLastForDate l x := by
  induction l with
  | nil => simp [keys] at h
  | cons e l ih =>
    by_cases hl : d ∈ keys l
    · obtain ⟨x, hxd, hx⟩ := ih hl
      exact ⟨x, hxd, (isLastForDate_cons e l x).2 (Or.inr hx)⟩
    · simp only [keys, List.map_cons, List.mem_cons] at h
      rcases h with h | h
      · exact ⟨e, h.symm, (isLastForDate_cons e l e).2 (Or.inl ⟨rfl, by rw [← h]; exact hl⟩)⟩
      · exact absurd h hl

theorem isLastForDate_append_right (l₁ l₂ : List Entry) (x : Entry)
    (h : IsLastForDate (l₁ ++ l₂) x) (hd : x.date ∈ keys l₂) : IsLastForDate l₂ x := by
  induction l₁ with
  | nil => simpa using h
  | cons e l₁ ih =>
    rw [List.cons_append, isLastForDate_cons] at h
    rcases h with ⟨_, hn⟩ | h
    · exfalso; apply hn
      simp only [keys, List.map_append, List.mem_append]
      exact Or.inr hd
    · exact ih h

theorem mem_sortByDate (dateValue : String → Int) (l : List Entry) (x : Entry) :
    x ∈ sortByDate dateValue l ↔ x ∈ l :=
  (List.perm_insertionSort _ l).mem_iff

theorem mem_keys_sortByDate (dateValue : String → Int) (l : List Entry) (d : String) :
    d ∈ keys (sortByDate dateValue l) ↔ d ∈ keys l :=
  ((List.perm_insertionSort _ l).map _).mem_iff

/-- After the `Map` rebuild of `A ++ sorted F`, a date of `F` is carried by exactly
one entry, and that entry comes from `F`. -/
theorem filter_rebuild_of_mem_fresh (dateValue : String → Int) (A F : List Entry) (d : String)
    (hF : d ∈ keys F) :
    ∃ f ∈ F, f.date = d ∧
      (mapValuesByDate (A ++ sortByDate dateValue F)).filter (fun e => e.date == d) = [f] := by
  have hsF : d ∈ keys (sortByDate dateValue F) := (mem_keys_sortByDate dateValue F d).2 hF
  have hall : d ∈ keys (A ++ sortByDate dateValue F) := by
    simp only [keys, List.map_append, List.mem_append]
    exact Or.inr hsF
  obtain ⟨x, hxd, hx⟩ := exists_isLastForDate _ d hall
  have hxF : x ∈ F := by
    have h1 := isLastForDate_append_right A (sortByDate dateValue F) x hx (by rw [hxd]; exact hsF)
    exact (mem_sortByDate dateValue F x).1 h1.mem
  refine ⟨x, hxF, hxd, ?_⟩
  have h2 := filter_date_eq_singleton _ (nodup_keys_mapValuesByDate (A ++ sortByDate dateValue F))
    x ((mem_mapValuesByDate _ x).2 hx)
  rw [hxd] at h2
  exact h2

/-- C4. Dedup correctness of the clones and views merge: when the stored record
exists and the stored list `S` and the fresh list `F` both hold an entry dated `d`,
`ClonesDataJob` and `ViewsDataJob` each write a record whose list holds exactly one
entry dated `d`, and that entry is an entry of `F` dated `d` (the entry of `F` for
`d` when `F` has one such entry). -/
theorem clones_views_dedup_correct (dateValue : String → Int) (opts : Opts)
    (data : ListRecord Entry) (F : List Entry) (d : String)
    (_hS : d ∈ data.list.map (fun e => e.date)) (hF : d ∈ F.map (fun e => e.date)) :
    (∃ f ∈ F, f.date = d ∧ ∃ written, ClonesDataJob dateValue opts (some data) F = some written ∧
        written.list.filter (fun e => e.date == d) = [f]) ∧
    (∃ f ∈ F, f.date = d ∧ ∃ written, ViewsDataJob dateValue opts (some data) F = some written ∧
        written.list.filter (fun e => e.date == d) = [f]) := by
  have hne : F.length ≠ 0 := by
    intro h0
    rw [List.length_eq_zero.1 h0] at hF
    simp at hF
  obtain ⟨f, hfF, hfd, hf⟩ :=
    filter_rebuild_of_mem_fresh dateValue (sortByDate dateValue data.list).dropLast F d hF
  constructor
  · refine ⟨f, hfF, hfd,
      { data with list := clonesMerge dateValue data.list F }, ?_, hf⟩
    simp only [ClonesDataJob, if_pos hne]
  · refine ⟨f, hfF, hfd,
      { data with list := viewsMerge dateValue data.list F }, ?_, hf⟩
    simp only [ViewsDataJob, if_pos hne]

/-- Witness of C4 on the scenario of the specification: stored 2024-01-01(5),
2024-01-02(3), fresh 2024-01-02(7), 2024-01-03(2), shared date 2024-01-02; the list
written is 2024-01-01(5), 2024-01-02(7), 2024-01-03(2). -/
theorem clones_views_dedup_correct_witness :
    ClonesDataJob jan2024 ⟨"acme", "t", 1, "repo"⟩
        (some ⟨1, "repo", [⟨"2024-01-01", 5⟩, ⟨"2024-01-02", 3⟩]⟩)
        [⟨"2024-01-02", 7⟩, ⟨"2024-01-03", 2⟩]
      = some ⟨1, "repo", [⟨"2024-01-01", 5⟩, ⟨"2024-01-02", 7⟩, ⟨"2024-01-03", 2⟩]⟩ ∧
    ((∃ f ∈ [(⟨"2024-01-02", 7⟩ : Entry), ⟨"2024-01-03", 2⟩], f.date = "2024-01-02" ∧
        ∃ written, ClonesDataJob jan2024 ⟨"acme", "t", 1, "repo"⟩
          (some ⟨1, "repo", [⟨"2024-01-01", 5⟩, ⟨"2024-01-02", 3⟩]⟩)
          [⟨"2024-01-02", 7⟩, ⟨"2024-01-03", 2⟩] = some written ∧
        written.list.filter (fun e => e.date == "2024-01-02") = [f]) ∧
     (∃ f ∈ [(⟨"2024-01-02", 7⟩ : Entry), ⟨"2024-01-03", 2⟩], f.date = "2024-01-02" ∧
        ∃ written, ViewsDataJob jan2024 ⟨"acme", "t", 1, "repo"⟩
          (some ⟨1, "repo", [⟨"2024-01-01", 5⟩, ⟨"2024-01-02", 3⟩]⟩)
          [⟨"2024-01-02", 7⟩, ⟨"2024-01-03", 2⟩] = some written ∧
        written.list.filter (fun e => e.date == "2024-01-02") = [f])) :=
  ⟨by decide,
   clones_views_dedup_correct jan2024 ⟨"acme", "t", 1, "repo"⟩
     ⟨1, "repo", [⟨"2024-01-01", 5⟩, ⟨"2024-01-02", 3⟩]⟩
     [⟨"2024-01-02", 7⟩, ⟨"2024-01-03", 2⟩] "2024-01-02" (by decide) (by decide)⟩

theorem length_mapValuesByDate (l : List Entry) :
    (mapValuesByDate l).length = (keys l).toFinset.card := by
  have h1 : (mapValuesByDate l).length = (keys (mapValuesByDate l)).length := by simp [keys]
  rw [h1, ← List.toFinset_card_of_nodup (nodup_keys_mapValuesByDate l)]
  congr 1
  ext d
  simp only [List.mem_toFinset]
  exact mem_keys_mapValuesByDate l d

theorem viewsMerge_eq_clonesMerge : viewsMerge = clonesMerge := rfl

/-- Entry count of a second clones merge with the same fresh list, by the date of the
entry the second merge pops. -/
theorem length_clonesMerge_twice (dateValue : String → Int) (S F : List Entry) (hF : F ≠ []) :
    ∃ x, (sortByDate dateValue (clonesMerge dateValue S F)).getLast? = some x ∧
      (x.date ∈ keys F → (clonesMerge dateValue (clonesMerge dateValue S F) F).length
          = (clonesMerge dateValue S F).length) ∧
      (x.date ∉ keys F → (clonesMerge dateValue (clonesMerge dateValue S F) F).length + 1
          = (clonesMerge dateValue S F).length) := by
  set M := clonesMerge dateValue S F with hM
  have hMnd : (keys M).Nodup := nodup_keys_mapValuesByDate _
  have hFM : ∀ d, d ∈ keys F → d ∈ keys M := by
    intro d hd
    rw [hM]
    unfold clonesMerge
    rw [mem_keys_mapValuesByDate]
    simp only [keys, List.map_append, List.mem_append]
    exact Or.inr ((mem_keys_sortByDate dateValue F d).2 hd)
  have hMne : sortByDate dateValue M ≠ [] := by
    obtain ⟨f, hf⟩ := List.exists_mem_of_ne_nil F hF
    have h1 : f.date ∈ keys M := hFM _ (List.mem_map.2 ⟨f, hf, rfl⟩)
    obtain ⟨y, hy, _⟩ := List.mem_map.1 h1
    intro h0
    have h2 := (mem_sortByDate dateValue M y).2 hy
    rw [h0] at h2
    cases h2
  obtain ⟨x, hx⟩ : ∃ x, (sortByDate dateValue M).getLast? = some x := by
    cases h : (sortByDate dateValue M).getLast? with
    | none => exact absurd (List.getLast?_eq_none_iff.1 h) hMne
    | some x => exact ⟨x, rfl⟩
  have hsplit : (sortByDate dateValue M).dropLast ++ [x] = sortByDate dateValue M :=
    List.dropLast_append_getLast? x hx
  have hsnd : (keys (sortByDate dateValue M)).Nodup :=
    ((List.perm_insertionSort _ M).map _).nodup_iff.2 hMnd
  have hxD : x.date ∉ keys (sortByDate dateValue M).dropLast := by
    rw [← hsplit] at hsnd
    simp only [keys, List.map_append, List.map_cons, List.map_nil] at hsnd
    have h3 := (List.nodup_append.1 hsnd).2.2
    intro hmem
    exact h3 hmem (List.mem_singleton.2 rfl)
  have hKM : ∀ d, d ∈ keys M ↔ d ∈ keys (sortByDate dateValue M).dropLast ∨ d = x.date := by
    intro d
    rw [← mem_keys_sortByDate dateValue M d]
    conv_lhs => rw [← hsplit]
    simp [keys]
  have hlen2 : (clonesMerge dateValue M F).length
      = ((keys (sortByDate dateValue M).dropLast).toFinset ∪ (keys F).toFinset).card := by
    unfold clonesMerge
    rw [length_mapValuesByDate]
    congr 1
    ext d
    simp only [keys, List.map_append, List.mem_toFinset, List.mem_append, Finset.mem_union]
    exact or_congr Iff.rfl (mem_keys_sortByDate dateValue F d)
  have hlenM : M.length = (keys M).toFinset.card := by
    rw [List.toFinset_card_of_nodup hMnd]
    simp [keys]
  have hKMset : (keys M).toFinset
      = insert x.date (keys (sortByDate dateValue M).dropLast).toFinset := by
    ext d
    simp only [List.mem_toFinset, Finset.mem_insert]
    rw [hKM]
    exact or_comm
  refine ⟨x, hx, ?_, ?_⟩
  · intro hxF
    rw [hlen2, hlenM]
    congr 1
    ext d
    simp only [Finset.mem_union, List.mem_toFinset]
    rw [hKM]
    constructor
    · rintro (h | h)
      · exact Or.inl h
      · exact (hKM d).1 (hFM d h)
    · rintro (h | h)
      · exact Or.inl h
      · exact Or.inr (h ▸ hxF)
  · intro hxF
    rw [hlen2, hlenM, hKMset, Finset.card_insert_of_not_mem (by simpa using hxD)]
    congr 2
    ext d
    simp only [Finset.mem_union, List.mem_toFinset]
    constructor
    · rintro (h | h)
      · exact h
      · rcases (hKM d).1 (hFM d h) with h1 | h1
        · exact h1
        · exact absurd (h1 ▸ h) hxF
    · exact Or.inl

/-- Counterexample to C5 as stated: stored 2024-01-05(2), 2024-01-09(3) and fresh
2024-01-02(7).  The first merge writes two entries, the second merge (same fresh
list) pops the stored 2024-01-05 entry and writes one. -/
theorem clones_views_merge_twice_counterexample :
    ([(⟨"2024-01-02", 7⟩ : Entry)] ≠ []) ∧
    clonesMerge jan2024 [⟨"2024-01-05", 2⟩, ⟨"2024-01-09", 3⟩] [⟨"2024-01-02", 7⟩]
      = [⟨"2024-01-05", 2⟩, ⟨"2024-01-02", 7⟩] ∧
    clonesMerge jan2024
        (clonesMerge jan2024 [⟨"2024-01-05", 2⟩, ⟨"2024-01-09", 3⟩] [⟨"2024-01-02", 7⟩])
        [⟨"2024-01-02", 7⟩]
      = [⟨"2024-01-02", 7⟩] ∧
    (clonesMerge jan2024
        (clonesMerge jan2024 [⟨"2024-01-05", 2⟩, ⟨"2024-01-09", 3⟩] [⟨"2024-01-02", 7⟩])
        [⟨"2024-01-02", 7⟩]).length
      ≠ (clonesMerge jan2024 [⟨"2024-01-05", 2⟩, ⟨"2024-01-09", 3⟩] [⟨"2024-01-02", 7⟩]).length ∧
    (viewsMerge jan2024
        (viewsMerge jan2024 [⟨"2024-01-05", 2⟩, ⟨"2024-01-09", 3⟩] [⟨"2024-01-02", 7⟩])
        [⟨"2024-01-02", 7⟩]).length
      ≠ (viewsMerge jan2024 [⟨"2024-01-05", 2⟩, ⟨"2024-01-09", 3⟩] [⟨"2024-01-02", 7⟩]).length := by
  decide

/-- C5 (amended). Applying the clones (resp. views) merge to `S` with a non-empty
fresh list `F` and again, with the same `F`, to the result gives a list with no two
entries of the same date.  The once-merged list has a latest entry `x`, the one the
second merge pops: when the date of `x` occurs in `F` the twice-merged list has as
many entries as the once-merged list, otherwise it has exactly one entry fewer. -/
theorem clones_views_merge_twice (dateValue : String → Int) (S F : List Entry) (hF : F ≠ []) :
    (((clonesMerge dateValue (clonesMerge dateValue S F) F).map (fun e => e.date)).Nodup ∧
      ∃ x, (sortByDate dateValue (clonesMerge dateValue S F)).getLast? = some x ∧
        (x.date ∈ F.map (fun e => e.date) →
          (clonesMerge dateValue (clonesMerge dateValue S F) F).length
            = (clonesMerge dateValue S F).length) ∧
        (x.date ∉ F.map (fun e => e.date) →
          (clonesMerge dateValue (clonesMerge dateValue S F) F).length + 1
            = (clonesMerge dateValue S F).length)) ∧
    (((viewsMerge dateValue (viewsMerge dateValue S F) F).map (fun e => e.date)).Nodup ∧
      ∃ x, (sortByDate dateValue (viewsMerge dateValue S F)).getLast? = some x ∧
        (x.date ∈ F.map (fun e => e.date) →
          (viewsMerge dateValue (viewsMerge dateValue S F) F).length
            = (viewsMerge dateValue S F).length) ∧
        (x.date ∉ F.map (fun e => e.date) →
          (viewsMerge dateValue (viewsMerge dateValue S F) F).length + 1
            = (viewsMerge dateValue S F).length)) := by
  have h : ((clonesMerge dateValue (clonesMerge dateValue S F) F).map (fun e => e.date)).Nodup ∧
      ∃ x, (sortByDate dateValue (clonesMerge dateValue S F)).getLast? = some x ∧
        (x.date ∈ F.map (fun e => e.date) →
          (clonesMerge dateValue (clonesMerge dateValue S F) F).length
            = (clonesMerge dateValue S F).length) ∧
        (x.date ∉ F.map (fun e => e.date) →
          (clonesMerge dateValue (clonesMerge dateValue S F) F).length + 1
            = (clonesMerge dateValue S F).length) :=
    ⟨nodup_keys_mapValuesByDate _, length_clonesMerge_twice dateValue S F hF⟩
  exact ⟨h, h⟩

/-- Witness of C5 (amended) on the scenario of the specification: the entry popped by
the second merge is dated 2024-01-03, a date of the fresh list, and both merges
write three entries. -/
theorem clones_views_merge_twice_witness :
    ([(⟨"2024-01-02", 7⟩ : Entry), ⟨"2024-01-03", 2⟩] ≠ []) ∧
    (sortByDate jan2024 (clonesMerge jan2024 [⟨"2024-01-01", 5⟩, ⟨"2024-01-02", 3⟩]
        [⟨"2024-01-02", 7⟩, ⟨"2024-01-03", 2⟩])).getLast? = some ⟨"2024-01-03", 2⟩ ∧
    (clonesMerge jan2024 (clonesMerge jan2024 [⟨"2024-01-01", 5⟩, ⟨"2024-01-02", 3⟩]
        [⟨"2024-01-02", 7⟩, ⟨"2024-01-03", 2⟩]) [⟨"2024-01-02", 7⟩, ⟨"2024-01-03", 2⟩]).length = 3 ∧
    ((clonesMerge jan2024 (clonesMerge jan2024 [⟨"2024-01-01", 5⟩, ⟨"2024-01-02", 3⟩]
        [⟨"2024-01-02", 7⟩, ⟨"2024-01-03", 2⟩])
        [⟨"2024-01-02", 7⟩, ⟨"2024-01-03", 2⟩]).map (fun e => e.date)).Nodup :=
  ⟨by decide, by decide, by decide,
   (clones_views_merge_twice jan2024 [⟨"2024-01-01", 5⟩, ⟨"2024-01-02", 3⟩]
      [⟨"2024-01-02", 7⟩, ⟨"2024-01-03", 2⟩] (by decide)).1.1⟩

theorem mem_keys_clonesMerge (dateValue : String → Int) (S F : List Entry) (d : String)
    (h : d ∈ keys (clonesMerge dateValue S F)) : d ∈ keys (S ++ F) := by
  unfold clonesMerge at h
  rw [mem_keys_mapValuesByDate] at h
  simp only [keys, List.map_append, List.mem_append, List.mem_map] at h ⊢
  rcases h with ⟨x, hx, hxd⟩ | ⟨x, hx, hxd⟩
  · exact Or.inl ⟨x, (mem_sortByDate dateValue S x).1 (List.mem_of_mem_dropLast hx), hxd⟩
  · exact Or.inr ⟨x, (mem_sortByDate dateValue F x).1 hx, hxd⟩

theorem onePerCalendarDate_clonesMerge (dateValue : String → Int) (S F : List Entry)
    (h : ∀ a ∈ S ++ F, ∀ b ∈ S ++ F, calendarDay a.date = calendarDay b.date → a.date = b.date) :
    OnePerCalendarDate (clonesMerge dateValue S F) := by
  have hnd : (keys (clonesMerge dateValue S F)).Nodup := nodup_keys_mapValuesByDate _
  have hmap : (clonesMerge dateValue S F).map (fun e => calendarDay e.date)
      = (keys (clonesMerge dateValue S F)).map calendarDay := by
    simp [keys]
  unfold OnePerCalendarDate
  rw [hmap]
  refine List.Nodup.map_on ?_ hnd
  intro d hd d' hd' hdd
  obtain ⟨a, ha, rfl⟩ := List.mem_map.1 (mem_keys_clonesMerge dateValue S F d hd)
  obtain ⟨b, hb, rfl⟩ := List.mem_map.1 (mem_keys_clonesMerge dateValue S F d' hd')
  exact h a ha b hb hdd

theorem onePerCalendarDate_watchersMerge (Today : String) (S F : List Entry)
    (hS : OnePerCalendarDate S) (hF : OnePerCalendarDate F)
    (hSF : ∀ s ∈ S, calendarDay s.date ≠ Today →
      ∀ f ∈ F, calendarDay f.date ≠ calendarDay s.date) :
    OnePerCalendarDate (watchersMerge Today S F) := by
  unfold OnePerCalendarDate watchersMerge at *
  rw [List.map_append]
  refine List.Nodup.append (hS.sublist ((List.filter_sublist S).map _)) hF ?_
  intro d hd1 hd2
  obtain ⟨s, hs, rfl⟩ := List.mem_map.1 hd1
  obtain ⟨f, hf, hfd⟩ := List.mem_map.1 hd2
  rw [List.mem_filter] at hs
  exact hSF s hs.1 (by simpa using hs.2) f hf hfd

/-- Counterexample to C6 as stated.  Watchers, run on 2024-01-02: the stored list
and the fresh list each hold one entry, both dated 2024-01-01; the stored entry is
not dated today, so it is kept and the list written holds two entries for
2024-01-01.  Clones: the stored 2024-01-01T00:00:00Z entry survives the pop and the
fresh entry 2024-01-01T12:00:00Z has another key, so both are written. -/
theorem time_series_one_entry_per_date_counterexample :
    (OnePerCalendarDate [⟨"2024-01-01", 5⟩] ∧ OnePerCalendarDate [⟨"2024-01-01", 6⟩] ∧
      WatchersDataJob "2024-01-02" ⟨"acme", "t", 1, "repo"⟩
          (some ⟨1, "repo", [⟨"2024-01-01", 5⟩], ["u"]⟩) [⟨"2024-01-01", 6⟩] ["u", "v"]
        = some ⟨1, "repo", [⟨"2024-01-01", 5⟩, ⟨"2024-01-01", 6⟩], ["u", "v"]⟩ ∧
      ¬ OnePerCalendarDate [⟨"2024-01-01", 5⟩, ⟨"2024-01-01", 6⟩]) ∧
    (OnePerCalendarDate [⟨"2024-01-01T00:00:00Z", 5⟩, ⟨"2024-01-02T00:00:00Z", 3⟩] ∧
      OnePerCalendarDate [⟨"2024-01-01T12:00:00Z", 7⟩] ∧
      ClonesDataJob jan2024 ⟨"acme", "t", 1, "repo"⟩
          (some ⟨1, "repo", [⟨"2024-01-01T00:00:00Z", 5⟩, ⟨"2024-01-02T00:00:00Z", 3⟩]⟩)
          [⟨"2024-01-01T12:00:00Z", 7⟩]
        = some ⟨1, "repo", [⟨"2024-01-01T00:00:00Z", 5⟩, ⟨"2024-01-01T12:00:00Z", 7⟩]⟩ ∧
      ViewsDataJob jan2024 ⟨"acme", "t", 1, "repo"⟩
          (some ⟨1, "repo", [⟨"2024-01-01T00:00:00Z", 5⟩, ⟨"2024-01-02T00:00:00Z", 3⟩]⟩)
          [⟨"2024-01-01T12:00:00Z", 7⟩]
        = some ⟨1, "repo", [⟨"2024-01-01T00:00:00Z", 5⟩, ⟨"2024-01-01T12:00:00Z", 7⟩]⟩ ∧
      ¬ OnePerCalendarDate [⟨"2024-01-01T00:00:00Z", 5⟩, ⟨"2024-01-01T12:00:00Z", 7⟩]) := by
  decide

/-- C6 (amended). Stored and fresh lists with at most one entry per calendar date.
Watchers: when no fresh entry shares its calendar date with a stored entry that is
not dated today, the list written has at most one entry per calendar date.  Clones
and views: the list written never holds two entries with the same `date` value, and
it has at most one entry per calendar date when entries of the two lists that share
a calendar date carry the same `date` value. -/
theorem time_series_one_entry_per_date (dateValue : String → Int) (Today : String) (opts : Opts)
    (wdata : WatchersRecord) (data : ListRecord Entry) (F : List Entry) (watchers : List String)
    (hW : OnePerCalendarDate wdata.list) (hF : OnePerCalendarDate F) :
    ((∀ s ∈ wdata.list, calendarDay s.date ≠ Today →
          ∀ f ∈ F, calendarDay f.date ≠ calendarDay s.date) →
      ∀ written, WatchersDataJob Today opts (some wdata) F watchers = some written →
        OnePerCalendarDate written.list) ∧
    (∀ written, ClonesDataJob dateValue opts (some data) F = some written →
      (written.list.map (fun e => e.date)).Nodup ∧
      ((∀ a ∈ data.list ++ F, ∀ b ∈ data.list ++ F,
          calendarDay a.date = calendarDay b.date → a.date = b.date) →
        OnePerCalendarDate written.list)) ∧
    (∀ written, ViewsDataJob dateValue opts (some data) F = some written →
      (written.list.map (fun e => e.date)).Nodup ∧
      ((∀ a ∈ data.list ++ F, ∀ b ∈ data.list ++ F,
          calendarDay a.date = calendarDay b.date → a.date = b.date) →
        OnePerCalendarDate written.list)) := by
  refine ⟨?_, ?_, ?_⟩
  · intro hSF written hw
    unfold WatchersDataJob at hw
    by_cases hne : watchers.length ≠ 0
    · simp only [if_pos hne, Option.some.injEq] at hw
      rw [← hw]
      exact onePerCalendarDate_watchersMerge Today wdata.list F hW hF hSF
    · simp only [if_neg hne] at hw
      cases hw
  · intro written hw
    unfold ClonesDataJob at hw
    by_cases hne : F.length ≠ 0
    · simp only [if_pos hne, Option.some.injEq] at hw
      rw [← hw]
      exact ⟨nodup_keys_mapValuesByDate _, onePerCalendarDate_clonesMerge dateValue data.list F⟩
    · simp only [if_neg hne] at hw
      cases hw
  · intro written hw
    unfold ViewsDataJob at hw
    by_cases hne : F.length ≠ 0
    · simp only [if_pos hne, Option.some.injEq] at hw
      rw [← hw]
      exact ⟨nodup_keys_mapValuesByDate _, onePerCalendarDate_clonesMerge dateValue data.list F⟩
    · simp only [if_neg hne] at hw
      cases hw

/-- Witness of C6 (amended): watchers run on 2024-01-03 with stored 2024-01-02,
2024-01-03 and fresh 2024-01-03; the stored entry of today is replaced and the list
written has one entry per calendar date. -/
theorem time_series_one_entry_per_date_witness :
    OnePerCalendarDate [⟨"2024-01-02", 3⟩, ⟨"2024-01-03", 1⟩] ∧
    OnePerCalendarDate [⟨"2024-01-03", 4⟩] ∧
    WatchersDataJob "2024-01-03" ⟨"acme", "t", 1, "repo"⟩
        (some ⟨1, "repo", [⟨"2024-01-02", 3⟩, ⟨"2024-01-03", 1⟩], ["u"]⟩) [⟨"2024-01-03", 4⟩] ["u"]
      = some ⟨1, "repo", [⟨"2024-01-02", 3⟩, ⟨"2024-01-03", 4⟩], ["u"]⟩ ∧
    OnePerCalendarDate [⟨"2024-01-02", 3⟩, ⟨"2024-01-03", 4⟩] :=
  ⟨by decide, by decide, by decide,
   (time_series_one_entry_per_date jan2024 "2024-01-03" ⟨"acme", "t", 1, "repo"⟩
      ⟨1, "repo", [⟨"2024-01-02", 3⟩, ⟨"2024-01-03", 1⟩], ["u"]⟩
      ⟨1, "repo", [⟨"2024-01-02", 3⟩]⟩ [⟨"2024-01-03", 4⟩] ["u"] (by decide) (by decide)).1
     (by decide) ⟨1, "repo", [⟨"2024-01-02", 3⟩, ⟨"2024-01-03", 4⟩], ["u"]⟩ (by decide)⟩

theorem mem_removeLaterDuplicates {α : Type} [DecidableEq α] (l : List α) (e : α) :
    e ∈ removeLaterDuplicates l ↔ e ∈ l := by
  induction l with
  | nil => simp [removeLaterDuplicates]
  | cons x xs ih =>
    simp only [removeLaterDuplicates, List.mem_cons, List.mem_filter, ih, decide_eq_true_eq]
    by_cases h : e = x <;> simp [h]

theorem nodup_removeLaterDuplicates {α : Type} [DecidableEq α] (l : List α) :
    (removeLaterDuplicates l).Nodup := by
  induction l with
  | nil => simp [removeLaterDuplicates]
  | cons x xs ih =>
    simp only [removeLaterDuplicates, List.nodup_cons, List.mem_filter, decide_eq_true_eq]
    exact ⟨fun h => h.2 rfl, ih.filter _⟩

theorem foldl_add_eq (acc l : List String) :
    l.foldl (fun seen s => if s ∈ seen then seen else seen ++ [s]) acc
      = acc ++ (removeLaterDuplicates l).filter (fun y => decide (y ∉ acc)) := by
  induction l generalizing acc with
  | nil => simp [removeLaterDuplicates]
  | cons x xs ih =>
    rw [List.foldl_cons]
    by_cases hx : x ∈ acc
    · rw [if_pos hx, ih]
      simp only [removeLaterDuplicates, List.filter_cons, hx, not_true_eq_false, decide_False,
        Bool.false_eq_true, if_false, List.filter_filter]
      congr 1
      apply List.filter_congr
      intro y _
      by_cases hy : y = x
      · subst hy; simp [hx]
      · simp [hy]
    · rw [if_neg hx, ih]
      simp only [removeLaterDuplicates, List.filter_cons, hx, not_false_eq_true, decide_True,
        if_true, List.filter_filter, List.append_assoc, List.singleton_append]
      congr 2
      apply List.filter_congr
      intro y _
      by_cases hy : y = x <;> simp [hy]

theorem setValues_eq (l : List String) : setValues l = removeLaterDuplicates l := by
  unfold setValues
  rw [foldl_add_eq]
  simp

theorem indexOf_filter_lt {α : Type} [DecidableEq α] (p : α → Bool) (l : List α) (a b : α)
    (ha : p a = true) (hb : p b = true) :
    (l.filter p).indexOf a < (l.filter p).indexOf b ↔ l.indexOf a < l.indexOf b := by
  induction l with
  | nil => simp
  | cons y ys ih =>
    by_cases hy : p y = true
    · rw [List.filter_cons_of_pos hy]
      by_cases hya : y = a
      · by_cases hyb : y = b
        · rw [List.indexOf_cons_eq _ hya, List.indexOf_cons_eq _ hyb,
            List.indexOf_cons_eq _ hya, List.indexOf_cons_eq _ hyb]
        · rw [List.indexOf_cons_eq _ hya, List.indexOf_cons_ne _ hyb,
            List.indexOf_cons_eq _ hya, List.indexOf_cons_ne _ hyb]
          simp
      · by_cases hyb : y = b
        · rw [List.indexOf_cons_ne _ hya, List.indexOf_cons_eq _ hyb,
            List.indexOf_cons_ne _ hya, List.indexOf_cons_eq _ hyb]
          simp
        · rw [List.indexOf_cons_ne _ hya, List.indexOf_cons_ne _ hyb,
            List.indexOf_cons_ne _ hya, List.indexOf_cons_ne _ hyb]
          simp only [Nat.succ_eq_add_one, Nat.add_lt_add_iff_right]
          exact ih
    · rw [List.filter_cons_of_neg hy]
      have hya : y ≠ a := fun h => hy (h ▸ ha)
      have hyb : y ≠ b := fun h => hy (h ▸ hb)
      rw [List.indexOf_cons_ne _ hya, List.indexOf_cons_ne _ hyb]
      simp only [Nat.succ_eq_add_one, Nat.add_lt_add_iff_right]
      exact ih

theorem indexOf_removeLaterDuplicates_lt {α : Type} [DecidableEq α] (l : List α) (a b : α) :
    (removeLaterDuplicates l).indexOf a < (removeLaterDuplicates l).indexOf b
      ↔ l.indexOf a < l.indexOf b := by
  induction l with
  | nil => simp [removeLaterDuplicates]
  | cons x xs ih =>
    simp only [removeLaterDuplicates]
    by_cases hxa : x = a
    · by_cases hxb : x = b
      · rw [List.indexOf_cons_eq _ hxa, List.indexOf_cons_eq _ hxb,
          List.indexOf_cons_eq _ hxa, List.indexOf_cons_eq _ hxb]
      · rw [List.indexOf_cons_eq _ hxa, List.indexOf_cons_ne _ hxb,
          List.indexOf_cons_eq _ hxa, List.indexOf_cons_ne _ hxb]
        simp
    · by_cases hxb : x = b
      · rw [List.indexOf_cons_ne _ hxa, List.indexOf_cons_eq _ hxb,
          List.indexOf_cons_ne _ hxa, List.indexOf_cons_eq _ hxb]
        simp
      · rw [List.indexOf_cons_ne _ hxa, List.indexOf_cons_ne _ hxb,
          List.indexOf_cons_ne _ hxa, List.indexOf_cons_ne _ hxb]
        simp only [Nat.succ_eq_add_one, Nat.add_lt_add_iff_right]
        rw [indexOf_filter_lt _ _ a b (by simpa using Ne.symm hxa) (by simpa using Ne.symm hxb)]
        exact ih

theorem removeLaterDuplicates_map_eq {α : Type} (f : α → String) (l : List α) :
    removeLaterDuplicates (l.map f)
      = (removeLaterDuplicatesBy (fun a b => f a == f b) l).map f := by
  induction l with
  | nil => rfl
  | cons x xs ih =>
    simp only [List.map_cons, removeLaterDuplicates, removeLaterDuplicatesBy, ih, List.filter_map]
    congr 2
    apply List.filter_congr
    intro y _
    by_cases h : f y = f x
    · simp [h]
    · simp [h, Ne.symm h]

theorem removeLaterDuplicatesBy_sublist {α : Type} (same : α → α → Bool) (l : List α) :
    (removeLaterDuplicatesBy same l).Sublist l := by
  induction l with
  | nil => exact List.Sublist.refl _
  | cons x xs ih =>
    simp only [removeLaterDuplicatesBy]
    exact ((List.filter_sublist _).trans ih).cons₂ x

theorem map_parse_map_stringify {α : Type} (stringify : α → String) (parse : String → α)
    (m : List α) (h : ∀ e ∈ m, parse (stringify e) = e) :
    (m.map stringify).map parse = m := by
  rw [List.map_map]
  conv_rhs => rw [← List.map_id m]
  exact List.map_congr_left (fun e he => h e he)

/-- Counterexample to C10 as stated.  Stored `[{id: 1, name: 'ci'}]`, fresh
`[{name: 'ci', id: 1}, {id: 1, name: 'ci'}]`: the first fresh entry is structurally
equal to the stored one but its JSON text differs, so the list written holds both;
dropping every entry structurally equal to an earlier one would leave one entry. -/
theorem actions_merge_counterexample :
    ([ciRunSwapped, ciRun] ≠ []) ∧
    deepEqual ciRun ciRunSwapped = true ∧
    stringifyObject ciRun ≠ stringifyObject ciRunSwapped ∧
    ActionsDataJob stringifyObject parseObject ⟨"acme", "t", 1, "repo"⟩
        (some ⟨1, "repo", [ciRun]⟩) [ciRunSwapped, ciRun]
      = ⟨1, "repo", [ciRun, ciRunSwapped]⟩ ∧
    removeLaterDuplicatesBy deepEqual ([ciRun] ++ [ciRunSwapped, ciRun]) = [ciRun] ∧
    (ActionsDataJob stringifyObject parseObject ⟨"acme", "t", 1, "repo"⟩
        (some ⟨1, "repo", [ciRun]⟩) [ciRunSwapped, ciRun]).list
      ≠ removeLaterDuplicatesBy deepEqual ([ciRun] ++ [ciRunSwapped, ciRun]) := by
  decide

/-- C10 (amended). Actions merge with a stored record and a non-empty fresh list `F`:
the record written keeps the stored identity and its list is `JSON.parse` of the
distinct `JSON.stringify` texts of `S ++ F`; those texts hold no text twice, are
exactly the texts of `S ++ F`, and are ordered by first occurrence.  When
`JSON.parse(JSON.stringify(e))` gives back each entry `e` of `S ++ F`, the list written
is `S ++ F` with every entry whose JSON text equals that of an earlier entry removed,
a sublist of `S ++ F` whose texts are those distinct texts.  Equality of entries is
equality of JSON text, not structural equality. -/
theorem actions_merge_by_json_text {α : Type} (stringify : α → String)
    (parse : String → α) (opts : Opts) (data : ListRecord α) (F : List α) (hF : F ≠ []) :
    ActionsDataJob stringify parse opts (some data) F
      = { data with
          list := (removeLaterDuplicates ((data.list ++ F).map stringify)).map parse } ∧
    (removeLaterDuplicates ((data.list ++ F).map stringify)).Nodup ∧
    (∀ t, t ∈ removeLaterDuplicates ((data.list ++ F).map stringify)
      ↔ t ∈ (data.list ++ F).map stringify) ∧
    (∀ s t, (removeLaterDuplicates ((data.list ++ F).map stringify)).indexOf s
          < (removeLaterDuplicates ((data.list ++ F).map stringify)).indexOf t
        ↔ ((data.list ++ F).map stringify).indexOf s
          < ((data.list ++ F).map stringify).indexOf t) ∧
    ((∀ e ∈ data.list ++ F, parse (stringify e) = e) →
      (ActionsDataJob stringify parse opts (some data) F).list
        = removeLaterDuplicatesBy (fun a b => stringify a == stringify b) (data.list ++ F) ∧
      (ActionsDataJob stringify parse opts (some data) F).list.map stringify
        = removeLaterDuplicates ((data.list ++ F).map stringify) ∧
      (ActionsDataJob stringify parse opts (some data) F).list.Sublist (data.list ++ F)) := by
  have hne : F.length ≠ 0 := fun h0 => hF (List.length_eq_zero.1 h0)
  have hw : ActionsDataJob stringify parse opts (some data) F
      = { data with
          list := (removeLaterDuplicates ((data.list ++ F).map stringify)).map parse } := by
    simp only [ActionsDataJob, if_pos hne, actionsMerge, setValues_eq]
  refine ⟨hw, nodup_removeLaterDuplicates _, mem_removeLaterDuplicates _,
    indexOf_removeLaterDuplicates_lt _, ?_⟩
  intro hjson
  have hsub := removeLaterDuplicatesBy_sublist (fun a b => stringify a == stringify b)
    (data.list ++ F)
  have hlist : (ActionsDataJob stringify parse opts (some data) F).list
      = removeLaterDuplicatesBy (fun a b => stringify a == stringify b) (data.list ++ F) := by
    rw [hw]
    show (removeLaterDuplicates ((data.list ++ F).map stringify)).map parse = _
    rw [removeLaterDuplicates_map_eq]
    exact map_parse_map_stringify stringify parse _ (fun e he => hjson e (hsub.subset he))
  refine ⟨hlist, ?_, ?_⟩
  · rw [hlist, removeLaterDuplicates_map_eq]
  · rw [hlist]; exact hsub

/-- Witness of C10 (amended): stored `[{id: 1, name: 'ci'}]`, fresh
`[{id: 1, name: 'ci'}, {id: 2, name: 'cd'}]`; the repeated entry has the JSON text of
the stored one and the list written is `[{id: 1, name: 'ci'}, {id: 2, name: 'cd'}]`. -/
theorem actions_merge_by_json_text_witness :
    ([ciRun, cdRun] ≠ []) ∧
    (∀ e ∈ [ciRun] ++ [ciRun, cdRun], parseObject (stringifyObject e) = e) ∧
    ActionsDataJob stringifyObject parseObject ⟨"acme", "t", 1, "repo"⟩
        (some ⟨1, "repo", [ciRun]⟩) [ciRun, cdRun]
      = ⟨1, "repo", [ciRun, cdRun]⟩ ∧
    (ActionsDataJob stringifyObject parseObject ⟨"acme", "t", 1, "repo"⟩
        (some ⟨1, "repo", [ciRun]⟩) [ciRun, cdRun]).list
      = removeLaterDuplicatesBy (fun a b => stringifyObject a == stringifyObject b)
          ([ciRun] ++ [ciRun, cdRun]) :=
  ⟨by decide, by decide, by decide,
   ((actions_merge_by_json_text stringifyObject parseObject ⟨"acme", "t", 1, "repo"⟩
      ⟨1, "repo", [ciRun]⟩ [ciRun, cdRun] (by decide)).2.2.2.2 (by decide)).1⟩

/-- C7 at the failing input. A stored actions record exists and the fresh fetch is
empty: `ActionsDataJob` still calls `SetActionsToDB`, with a new record whose list is
empty, so the stored list is replaced; on the same input shape `ClonesDataJob`,
`ViewsDataJob` and `WatchersDataJob` write nothing. -/
theorem actions_empty_fetch_overwrites {α : Type} (stringify : α → String) (parse : String → α)
    (dateValue : String → Int) (Today : String) (opts : Opts)
    (data : ListRecord α) (tdata : ListRecord Entry) (wdata : WatchersRecord) :
    ActionsDataJob stringify parse opts (some data) []
      = { repo_id := opts.repoId, repo_name := opts.repoName, list := [] } ∧
    ClonesDataJob dateValue opts (some tdata) [] = none ∧
    ViewsDataJob dateValue opts (some tdata) [] = none ∧
    WatchersDataJob Today opts (some wdata) [] [] = none := by
  simp [ActionsDataJob, ClonesDataJob, ViewsDataJob, WatchersDataJob]

theorem limitCallback_ne_true (v : JsValue) : limitCallback v ≠ .ok true := by
  cases v <;> simp [limitCallback, typeofObject, callToUpperCase]

theorem limitReachFlag_ne_true (vs : List JsValue) : limitReachFlag vs ≠ .ok true := by
  induction vs with
  | nil => simp [limitReachFlag]
  | cons v rest ih =>
    unfold limitReachFlag
    split
    · simp
    · rename_i h; exact absurd h (limitCallback_ne_true v)
    · exact ih

theorem fanOutLoop_frame (env : Env) (c : Nat) (l : List (Repo × SyncBodies)) (w : World) :
    (fanOutLoop env c l w).1.org = w.org ∧ (fanOutLoop env c l w).1.job = w.job ∧
    (fanOutLoop env c l w).2 ≠ .ok (some .error) ∧ (fanOutLoop env c l w).2 ≠ .ok (some .success) := by
  induction l generalizing w with
  | nil => simp [fanOutLoop]
  | cons p rest ih =>
    obtain ⟨repo, bodies⟩ := p
    unfold fanOutLoop
    split
    · simp
    · rename_i h; exact absurd h (limitReachFlag_ne_true _)
    · have := ih { w with started := w.started ++ [repo] }
      simpa using this

theorem tryBlock_of_eligibilityFailure (env : Env) (w : World)
    (h : eligibilityFailure env w = true) : tryBlock env w = (w, .ok .error) := by
  unfold eligibilityFailure at h
  unfold tryBlock
  cases hg : env.getOrg with
  | some exc => simp [hg] at h
  | none =>
    cases ho : w.org with
    | none => simp [ho] at h
    | some org =>
      simp only [hg, ho, Option.isNone_none, Bool.true_and] at h ⊢
      cases hgate : orgNotFoundOrInactive org with
      | error e => simp [hgate] at h
      | ok b =>
        cases b with
        | true => rfl
        | false =>
          simp only [hgate] at h ⊢
          simp [h]

theorem tryBlock_spec (env : Env) (w : World) :
    (eligibilityFailure env w = true ∧ tryBlock env w = (w, .ok .error)) ∨
    (eligibilityFailure env w = false ∧ ∃ w1 e, tryBlock env w = (w1, .error e) ∧
      w1.job.expires_at = w.job.expires_at ∧ w1.org = w.org) ∨
    (eligibilityFailure env w = false ∧ ∃ org, w.org = some org ∧
      org.api_limit_exceeded = true ∧
      tryBlock env w = ({ w with job := { w.job with processing := true } }, .ok .success)) ∨
    (eligibilityFailure env w = false ∧ ∃ org w3, w.org = some org ∧
      org.api_limit_exceeded = false ∧ tryBlock env w = (w3, .ok .success) ∧ w3.org = w.org ∧
      (env.scheduleSubmit = none → w3.job = ⟨(env.now + 3600000) / 1000, false⟩) ∧
      (env.scheduleSubmit ≠ none → w3.job = ⟨w.job.expires_at, true⟩)) := by
  by_cases he : eligibilityFailure env w = true
  · exact Or.inl ⟨he, tryBlock_of_eligibilityFailure env w he⟩
  right
  have he' : eligibilityFailure env w = false := by simpa using he
  obtain ⟨worg, wjob, wstarted⟩ := w
  unfold eligibilityFailure at he
  unfold tryBlock
  cases hg : env.getOrg with
  | some exc => exact Or.inl ⟨he', _, exc, rfl, rfl, rfl⟩
  | none =>
  dsimp only
  cases worg with
  | none => exact Or.inl ⟨he', _, typeError, rfl, rfl, rfl⟩
  | some org =>
  simp only [hg, Option.isNone_none, Bool.true_and] at he
  dsimp only
  cases hgate : orgNotFoundOrInactive org with
  | error e => exact Or.inl ⟨he', _, e, rfl, rfl, rfl⟩
  | ok b =>
  cases b with
  | true => simp [hgate] at he
  | false =>
  simp only [hgate, Bool.not_eq_true', Bool.not_eq_false] at he
  simp only [he, Bool.not_true, Bool.false_eq_true, if_false]
  cases hs : env.submitProcessingTrue with
  | some exc => exact Or.inl ⟨he', _, exc, rfl, rfl, rfl⟩
  | none =>
  cases hl : org.api_limit_exceeded with
  | true => exact Or.inr (Or.inl ⟨he', org, rfl, hl, rfl⟩)
  | false =>
  simp only [Bool.not_false, if_true]
  cases h1 : env.getReposList with
  | some exc => exact Or.inl ⟨he', _, exc, rfl, rfl, rfl⟩
  | none =>
  cases h2 : env.updateMultiRepo with
  | some exc => exact Or.inl ⟨he', _, exc, rfl, rfl, rfl⟩
  | none =>
  cases h3 : env.getRepoListFromDB with
  | error exc => exact Or.inl ⟨he', _, exc, rfl, rfl, rfl⟩
  | ok repoList =>
  dsimp only
  obtain ⟨f1, f2, f3, f4⟩ := fanOutLoop_frame env org.api_limit_reached_count repoList
    ⟨some org, ⟨wjob.expires_at, true⟩, wstarted⟩
  rcases hfan : fanOutLoop env org.api_limit_reached_count repoList
    ⟨some org, ⟨wjob.expires_at, true⟩, wstarted⟩ with ⟨w2, r⟩
  rw [hfan] at f1 f2 f3 f4
  dsimp only at f1 f2 f3 f4
  cases r with
  | error e => exact Or.inl ⟨he', w2, e, rfl, by rw [f2], f1⟩
  | ok st =>
  cases st with
  | some st => cases st <;> simp at f3 f4
  | none =>
  simp only [ScheduleDBJob]
  cases h4 : env.scheduleSubmit with
  | none =>
    exact Or.inr (Or.inr ⟨he', org, _, rfl, hl, rfl, f1, fun _ => rfl, fun h => absurd rfl h⟩)
  | some exc =>
    dsimp only
    cases h5 : returnErrorObject exc with
    | error e => exact Or.inl ⟨he', w2, e, rfl, by rw [f2], f1⟩
    | ok v =>
      exact Or.inr (Or.inr ⟨he', org, w2, rfl, hl, rfl, f1, fun h => Option.noConfusion h,
        fun _ => f2⟩)

theorem dailyScheduledJobs_org (env : Env) (w : World) :
    (DailyScheduledJobs env w).1.org = w.org := by
  unfold DailyScheduledJobs
  rcases tryBlock_spec env w with ⟨_, h⟩ | ⟨_, w1, e, h, _, ho⟩ | ⟨_, org, _, _, h⟩ |
    ⟨_, org, w3, _, _, h, ho, _⟩
  · rw [h]
  · rw [h]
    cases env.submitProcessingFalse <;> exact ho
  · rw [h]
  · rw [h]; exact ho

/-- C1 at the failing input. An eligible organization (counter 2), repositories `a`
and `b`; for `a` the clones synchronizer fails with a response message
"api limit exceeded", so its outcome is the object with message "API LIMIT EXCEEDED",
which contains "API LIMIT".  The run returns 'error' with only `a` started and no
reschedule, but the organization document is unchanged: `api_limit_exceeded` is still
false and the counter still 2.  No run at all changes the organization document. -/
theorem rate_limit_never_recorded :
    metricsJobCollection
        { allSuccess with clones := .error ⟨some (some "api limit exceeded"), none⟩ }
      = [.str "success", .str "success", .obj (some "API LIMIT EXCEEDED"), .str "success",
         .str "success", .str "success", .str "success", .str "success", .bool true] ∧
    includes "API LIMIT EXCEEDED" "API LIMIT" = true ∧
    DailyScheduledJobs
        (quietEnv [(⟨1, "a"⟩,
            { allSuccess with clones := .error ⟨some (some "api limit exceeded"), none⟩ }),
          (⟨2, "b"⟩, allSuccess)] 1700000000123)
        ⟨some acme, ⟨100, false⟩, []⟩
      = (⟨some acme, ⟨100, false⟩, [⟨1, "a"⟩]⟩, .ok .error) ∧
    acme.api_limit_exceeded = false ∧ acme.api_limit_reached_count = 2 ∧
    ∀ env w, (DailyScheduledJobs env w).1.org = w.org :=
  ⟨rfl, by decide, rfl, rfl, rfl, dailyScheduledJobs_org⟩

/-- C2 at the failing input. An organization that has a name and is onboarded but
whose status is "suspended": the gate of line 432 reads the status only when the name
is missing, so the run fans out repository `a`, reschedules and returns 'success'.
Whatever its status, a named organization is not rejected by that gate. -/
theorem inactive_named_org_runs :
    toUpperCase "suspended" ≠ "ACTIVE" ∧
    DailyScheduledJobs (quietEnv [(⟨1, "a"⟩, allSuccess)] 1700000000123)
        ⟨some ⟨some "acme", true, "t", some "suspended", false, 2⟩, ⟨100, false⟩, []⟩
      = (⟨some ⟨some "acme", true, "t", some "suspended", false, 2⟩, ⟨1700003600, false⟩,
          [⟨1, "a"⟩]⟩, .ok .success) ∧
    ∀ org : Org, notOrgName org.org_name = false → orgNotFoundOrInactive org = .ok false :=
  ⟨by decide, rfl, fun org h => by simp [orgNotFoundOrInactive, h]⟩

/-- C3 at the failing input. An eligible organization, repositories `a` and `b`; for
`a` the forks synchronizer fails with the message "connect ETIMEDOUT", so its outcome
is the object with message "CONNECT ETIMEDOUT", which does not contain "API LIMIT".
The callback of line 480 calls `toUpperCase` on that object and throws; the run
returns 'error' with `b` never started and the expiry not advanced. -/
theorem plain_failure_aborts_run :
    metricsJobCollection { allSuccess with forks := .error ⟨none, some "connect ETIMEDOUT"⟩ }
      = [.str "success", .str "success", .str "success", .str "success",
         .obj (some "CONNECT ETIMEDOUT"), .str "success", .str "success", .str "success",
         .bool true] ∧
    includes "CONNECT ETIMEDOUT" "API LIMIT" = false ∧
    limitReachFlag (metricsJobCollection
        { allSuccess with forks := .error ⟨none, some "connect ETIMEDOUT"⟩ })
      = .error typeError ∧
    DailyScheduledJobs
        (quietEnv [(⟨1, "a"⟩,
            { allSuccess with forks := .error ⟨none, some "connect ETIMEDOUT"⟩ }),
          (⟨2, "b"⟩, allSuccess)] 1700000000123)
        ⟨some acme, ⟨100, false⟩, []⟩
      = (⟨some acme, ⟨100, false⟩, [⟨1, "a"⟩]⟩, .ok .error) :=
  ⟨rfl, by decide, rfl, rfl⟩

/-- Counterexample to C8 as stated: an eligible organization whose
`api_limit_exceeded` flag is true.  The run returns 'success' and leaves the Job
Record with `processing = true` and the old expiry. -/
theorem success_run_job_record_counterexample :
    DailyScheduledJobs (quietEnv [(⟨1, "a"⟩, allSuccess)] 1700000000123)
        ⟨some { acme with api_limit_exceeded := true }, ⟨100, false⟩, []⟩
      = (⟨some { acme with api_limit_exceeded := true }, ⟨100, true⟩, []⟩, .ok .success) ∧
    (⟨100, true⟩ : JobRecord).processing ≠ false ∧
    (⟨100, true⟩ : JobRecord).expires_at ≠ (1700000000123 + 3600000) / 1000 :=
  ⟨rfl, by decide, by decide⟩

/-- C8 (amended). A run that returns 'success' read an organization document.  When
its `api_limit_exceeded` flag was false and the `SubmitTask` of `ScheduleDBJob` is
acknowledged, the Job Record is left with `processing = false` and `expires_at` equal
to the clock reading plus one hour, to the second.  When the flag was true, the Job
Record is left with `processing = true` and its expiry unchanged. -/
theorem success_run_job_record (env : Env) (w : World)
    (h : (DailyScheduledJobs env w).2 = .ok .success) :
    ∃ org, w.org = some org ∧
      (org.api_limit_exceeded = false → env.scheduleSubmit = none →
        (DailyScheduledJobs env w).1.job = ⟨(env.now + 3600000) / 1000, false⟩) ∧
      (org.api_limit_exceeded = true →
        (DailyScheduledJobs env w).1.job = ⟨w.job.expires_at, true⟩) := by
  unfold DailyScheduledJobs at h ⊢
  rcases tryBlock_spec env w with ⟨_, ht⟩ | ⟨_, w1, e, ht, _, _⟩ | ⟨_, org, ho, hl, ht⟩ |
    ⟨_, org, w3, ho, hl, ht, _, h1, _⟩
  · rw [ht] at h; cases h
  · rw [ht] at h
    cases hs : env.submitProcessingFalse <;> rw [hs] at h <;> cases h
  · rw [ht]
    exact ⟨org, ho, fun h0 => (by rw [hl] at h0; cases h0), fun _ => rfl⟩
  · rw [ht]
    exact ⟨org, ho, fun _ hs => h1 hs, fun h0 => (by rw [hl] at h0; cases h0)⟩

/-- Witness of C8 (amended): an eligible organization with two repositories whose
synchronizers all succeed, clock at 1700000000123 ms; the Job Record ends with
`processing = false` and expiry 1700003600 s. -/
theorem success_run_job_record_witness :
    (DailyScheduledJobs (quietEnv [(⟨1, "a"⟩, allSuccess), (⟨2, "b"⟩, allSuccess)] 1700000000123)
        ⟨some acme, ⟨100, false⟩, []⟩).2 = .ok .success ∧
    (DailyScheduledJobs (quietEnv [(⟨1, "a"⟩, allSuccess), (⟨2, "b"⟩, allSuccess)] 1700000000123)
        ⟨some acme, ⟨100, false⟩, []⟩).1.job = ⟨1700003600, false⟩ ∧
    ∃ org, (some acme) = some org ∧
      (org.api_limit_exceeded = false → (none : Option JsError) = none →
        (DailyScheduledJobs
            (quietEnv [(⟨1, "a"⟩, allSuccess), (⟨2, "b"⟩, allSuccess)] 1700000000123)
            ⟨some acme, ⟨100, false⟩, []⟩).1.job = ⟨(1700000000123 + 3600000) / 1000, false⟩) ∧
      (org.api_limit_exceeded = true →
        (DailyScheduledJobs
            (quietEnv [(⟨1, "a"⟩, allSuccess), (⟨2, "b"⟩, allSuccess)] 1700000000123)
            ⟨some acme, ⟨100, false⟩, []⟩).1.job = ⟨100, true⟩) :=
  ⟨rfl, rfl,
   success_run_job_record
     (quietEnv [(⟨1, "a"⟩, allSuccess), (⟨2, "b"⟩, allSuccess)] 1700000000123)
     ⟨some acme, ⟨100, false⟩, []⟩ rfl⟩

/-- Counterexample to C9 as stated.  The run of an organization parked by
`api_limit_exceeded = true` returns 'success' and leaves `processing = true`; once
that organization is no longer onboarded, the next run returns 'error' at line 439
without writing the Job Record, which still has `processing = true`. -/
theorem error_run_job_record_counterexample :
    (DailyScheduledJobs (quietEnv [] 1700000000123)
        ⟨some { acme with api_limit_exceeded := true }, ⟨100, false⟩, []⟩).1.job = ⟨100, true⟩ ∧
    DailyScheduledJobs (quietEnv [] 1700003600123)
        ⟨some { acme with api_limit_exceeded := true, onboard_complete := false },
          ⟨100, true⟩, []⟩
      = (⟨some { acme with api_limit_exceeded := true, onboard_complete := false },
          ⟨100, true⟩, []⟩, .ok .error) ∧
    (⟨100, true⟩ : JobRecord).processing ≠ false :=
  ⟨rfl, rfl, by decide⟩

/-- C9 (amended). A run that returns 'error' leaves `expires_at` as it was.  When the
error is an eligibility failure (the return of line 434 or 439) the Job Record is not
written: it is exactly as before the run.  Otherwise the error comes from the `catch`
of the controller and the Job Record is left with `processing = false`. -/
theorem error_run_job_record (env : Env) (w : World)
    (h : (DailyScheduledJobs env w).2 = .ok .error) :
    (DailyScheduledJobs env w).1.job.expires_at = w.job.expires_at ∧
    (eligibilityFailure env w = true → (DailyScheduledJobs env w).1.job = w.job) ∧
    (eligibilityFailure env w = false →
      (DailyScheduledJobs env w).1.job.processing = false) := by
  unfold DailyScheduledJobs at h ⊢
  rcases tryBlock_spec env w with ⟨he, ht⟩ | ⟨he, w1, e, ht, hx, _⟩ | ⟨_, org, _, _, ht⟩ |
    ⟨_, org, w3, _, _, ht, _⟩
  · rw [ht]
    exact ⟨rfl, fun _ => rfl, fun h0 => (by rw [he] at h0; cases h0)⟩
  · rw [ht] at h ⊢
    cases hs : env.submitProcessingFalse with
    | some exc => rw [hs] at h; cases h
    | none => exact ⟨hx, fun h0 => (by rw [he] at h0; cases h0), fun _ => rfl⟩
  · rw [ht] at h; cases h
  · rw [ht] at h; cases h

/-- Witness of C9 (amended): the get of the repository list throws for an eligible
organization; the `catch` resets `processing` and the run returns 'error' with the
expiry unchanged. -/
theorem error_run_job_record_witness :
    (DailyScheduledJobs
        { quietEnv [] 1700000000123 with getRepoListFromDB := .error ⟨none, some "timeout"⟩ }
        ⟨some acme, ⟨100, false⟩, []⟩).2 = .ok .error ∧
    (DailyScheduledJobs
        { quietEnv [] 1700000000123 with getRepoListFromDB := .error ⟨none, some "timeout"⟩ }
        ⟨some acme, ⟨100, false⟩, []⟩).1.job = ⟨100, false⟩ ∧
    (DailyScheduledJobs
        { quietEnv [] 1700000000123 with getRepoListFromDB := .error ⟨none, some "timeout"⟩ }
        ⟨some acme, ⟨100, false⟩, []⟩).1.job.expires_at = 100 :=
  ⟨rfl, rfl,
   (error_run_job_record
      { quietEnv [] 1700000000123 with getRepoListFromDB := .error ⟨none, some "timeout"⟩ }
      ⟨some acme, ⟨100, false⟩, []⟩ rfl).1⟩

end MetricsScheduler
